import Mathlib

/-!
Shallow embedding of the `status` repository: the daemon `statusd.cpp`
(both variants that appear in the file) and the one-shot client
`status.cpp`.

Modelling conventions:
* A field buffer (`char field_buffers[N_FIELDS][FIELD_BUF_MAX_SIZE]`) is a
  `List Nat` of length 32, one `Nat` per byte; the null byte is `0`, the
  newline byte is `10`.
* The store of all field buffers is a `List (List Nat)` of length
  `N_FIELDS = 3`.
* The outside world (the child processes spawned by `read_cmd_output`) is
  an environment `env : Nat → ExecOutcome` giving, for each field index,
  the outcome of running that field's shell command during the current
  operation.
* Machine integers: the daemon's `u64 bitset` is a `Nat` (with `< 2 ^ 64`
  hypotheses where the width matters); bitwise operators are `Nat`
  operators.
-/

namespace Status

/-- Number of fields, from the `FieldIndex` enum of `statusd.cpp`
(`FI_TIME = 0`, `FI_LOAD`, `FI_TEMP`, `N_FIELDS`): three fields. -/
def N_FIELDS : Nat := 3

/-- The `FIELD_BUF_MAX_SIZE` macro: `(31 + 1)` bytes per field buffer. -/
def FIELD_BUF_MAX_SIZE : Nat := 31 + 1

/-- Outcome of the fallible steps of one `read_cmd_output` call, supplied
by the environment: `pipe(2)` may fail, `fork(2)` may fail, the `read_all`
loop may fail after transferring some bytes (`readFail transferred`
carries the bytes the failing `read_all` had already written over the
front of the buffer before a `read` returned a non-`EINTR` error), or the
child's standard output is captured as a byte stream.  An `execv` failure
in the child is not a separate case: the parent then simply reads an
empty stream (`ok []`). -/
inductive ExecOutcome where
  | pipeFail
  | forkFail
  | readFail (transferred : List Nat)
  | ok (output : List Nat)

/-- Effect of `read_all(fd, buf, count)` (statusd.cpp, `read_all`): the
parent reads from the pipe until end of file or until `count` bytes have
arrived, retrying on `EINTR`, so the bytes captured are the first
`min count |output|` bytes of the child's output stream. -/
def read_all_bytes (output : List Nat) (count : Nat) : List Nat :=
  output.take count

/-- Writing `data.length` bytes over the front of buffer `buf`, the effect
of `read_all` landing the captured bytes at `&buf[0]`. -/
def overwriteFront (buf data : List Nat) : List Nat :=
  data ++ buf.drop data.length

/-- Embedding of `read_cmd_output(cmd, buf)` (statusd.cpp): returns the
`bool` result together with the new contents of the 32-byte buffer.
Success path, in source order: `buf[0] = '\0'` (ignore previous
contents), `nbytes = read_all(pipe_fds[0], &buf[0], FIELD_BUF_MAX_SIZE -
1)`, `buf[nbytes] = '\0'`, and if `nbytes > 0 && buf[nbytes - 1] == '\n'`
then `buf[nbytes - 1] = '\0'`.  On pipe or fork failure the function
returns before touching the buffer; on read failure it has already
executed `buf[0] = '\0'`, and the failing `read_all` call has written
the bytes it transferred before the error over the front of the buffer —
strictly fewer than the requested 31 bytes, since the loop only issues
another `read` while `read_so_far < count`, so at most 30 — with no
terminator added on this path. -/
def read_cmd_output (outcome : ExecOutcome) (buf : List Nat) : Bool × List Nat :=
  match outcome with
  | .pipeFail => (false, buf)
  | .forkFail => (false, buf)
  | .readFail transferred =>
    (false, overwriteFront (buf.set 0 0) (transferred.take 30))
  | .ok output =>
    let buf1 := buf.set 0 0
    let captured := read_all_bytes output (FIELD_BUF_MAX_SIZE - 1)
    let n := captured.length
    let buf2 := overwriteFront buf1 captured
    let buf3 := buf2.set n 0
    let buf4 :=
      if 0 < n ∧ buf3.getD (n - 1) 0 = 10 then buf3.set (n - 1) 0 else buf3
    (true, buf4)

/-- The C string stored in a buffer: the bytes strictly before the first
null byte. -/
def cstr : List Nat → List Nat
  | [] => []
  | b :: rest => if b = 0 then [] else b :: cstr rest

/-- Embedding of `run_update(&updates[i])` (statusd.cpp): every entry of
the `updates` table is a `UT_SHELL` entry whose `buffer_idx` equals its
position `i`, so the update runs the field's shell command and captures
its output into `field_buffers[i]`. -/
def run_update (env : Nat → ExecOutcome) (i : Nat) (bufs : List (List Nat)) :
    List (List Nat) :=
  bufs.set i (read_cmd_output (env i) (bufs.getD i [])).2

/-- Embedding of `init_status()` (statusd.cpp): run every update of the
`updates` table once, in table order.  (The subsequent `refresh_status()`
call renders the buffers but does not change them.) -/
def init_status (env : Nat → ExecOutcome) (bufs : List (List Nat)) :
    List (List Nat) :=
  (List.range N_FIELDS).foldl (fun bs i => run_update env i bs) bufs

/-- Value of the test expression `1 << i` in the first daemon variant of
`statusd.cpp` (`bitset & (1 << i)`): the shift is performed on the plain
`int` literal `1` and the non-negative result is converted to `u64`
value-preservingly.  Well-defined for `i ≤ 30`; the dispatch loop only
evaluates it at `i < N_FIELDS = 3`. -/
def test_mask_int (i : Nat) : Nat := 1 <<< i

/-- Value of the clear expression `~(1 << i)` in the first daemon variant
(`bitset &= ~(1 << i)`): the `int` complement of `1 << i` is the negative
number `-(2 ^ i) - 1`, which is sign-extended on conversion to `u64`,
giving `2 ^ 64 - 1 - 2 ^ i`.  Well-defined for `i ≤ 30`. -/
def clear_mask_int (i : Nat) : Nat := 2 ^ 64 - 1 - (1 <<< i)

/-- Value of the test expression `u64(1) << i` in the second daemon
variant of `statusd.cpp`: a genuine 64-bit shift. -/
def test_mask_u64 (i : Nat) : Nat := (1 <<< i) % 2 ^ 64

/-- Value of the clear expression `~(u64(1) << i)` in the second daemon
variant: the 64-bit complement of the 64-bit shift. -/
def clear_mask_u64 (i : Nat) : Nat := (2 ^ 64 - 1) ^^^ ((1 <<< i) % 2 ^ 64)

/-- Result of one dispatch (one pass of the daemon loop body after a full
8-byte bitset was read): the new field buffers, the trace `ran` of field
indices whose update source was executed (in execution order), the value
left in `bitset` after the loop cleared bits `0 .. N_FIELDS - 1`, and the
number of out-of-range diagnostic lines printed (`if (bitset)
fprintf(...)`, hence 0 or 1). -/
structure DispatchResult where
  bufs : List (List Nat)
  ran : List Nat
  leftover : Nat
  oobDiags : Nat

/-- The daemon's inner `for (u8 i = 0; i < std::size(updates); i++)` loop,
parameterized by the variant's test and clear mask expressions.  Each
iteration runs `run_update` when `bitset & test(i)` is non-zero and then
executes `bitset &= clear(i)`. -/
def dispatch_loop (env : Nat → ExecOutcome) (test clear : Nat → Nat) :
    List Nat → Nat → List (List Nat) → List Nat →
      Nat × List (List Nat) × List Nat
  | [], bitset, bufs, ran => (bitset, bufs, ran)
  | i :: rest, bitset, bufs, ran =>
    if bitset &&& test i ≠ 0 then
      dispatch_loop env test clear rest (bitset &&& clear i)
        (run_update env i bufs) (ran ++ [i])
    else
      dispatch_loop env test clear rest (bitset &&& clear i) bufs ran

/-- One dispatch of the first daemon variant (statusd.cpp, first `main`):
loop over `i = 0 .. N_FIELDS - 1` with the `int`-literal masks, then
print one diagnostic if any bits remain set.  (The trailing
`refresh_status()` renders the buffers but does not change them.) -/
def dispatch (env : Nat → ExecOutcome) (bitset : Nat)
    (bufs : List (List Nat)) : DispatchResult :=
  let r := dispatch_loop env test_mask_int clear_mask_int
    (List.range N_FIELDS) bitset bufs []
  ⟨r.2.1, r.2.2, r.1, if r.1 ≠ 0 then 1 else 0⟩

/-- One dispatch of the second daemon variant (statusd.cpp, second
`main`), whose loop shifts a 64-bit value: `bitset & (u64(1) << i)` and
`bitset &= ~(u64(1) << i)`. -/
def dispatch64 (env : Nat → ExecOutcome) (bitset : Nat)
    (bufs : List (List Nat)) : DispatchResult :=
  let r := dispatch_loop env test_mask_u64 clear_mask_u64
    (List.range N_FIELDS) bitset bufs []
  ⟨r.2.1, r.2.2, r.1, if r.1 ≠ 0 then 1 else 0⟩

/-- One event at the blocking `read(sock_fd, &bitset, sizeof(bitset))`
at the top of the daemon's receive loop: either a receive error
(`nbytes < 0`), or the arrival of one datagram with the given payload
bytes.  `read(2)` on a `SOCK_DGRAM` socket delivers
`min (payload length) 8` bytes into `bitset` and silently discards the
rest of an oversized datagram, so `nbytes` is never larger than 8. -/
inductive RecvResult where
  | recvErr
  | recvDatagram (payload : List Nat)

/-- The `u64` value laid out in memory by `read` writing the first eight
payload bytes into `&bitset`, in native byte order (little-endian on the
x86-64 targets of `compile.sh`). -/
def le64 : List Nat → Nat
  | [] => 0
  | b :: rest => b + 256 * le64 rest

/-- What one iteration of the daemon's receive loop does: terminate the
process with an exit code, or keep looping after printing `diagCount`
diagnostic lines, with `bufs` the field buffers at the end of the
iteration. -/
inductive LoopStep where
  | fatal (code : Nat)
  | continued (diagCount : Nat) (bufs : List (List Nat))
deriving DecidableEq

/-- Embedding of one iteration of the receive loop in `main`
(statusd.cpp): `read` returns `min (payload length) 8`.  A read error or
a zero-length read (an empty datagram, treated by the daemon as the
socket being closed) terminates the daemon with `EXIT_FAILURE = 1`; a
read of `nbytes ≠ 8` — a 1- to 7-byte datagram — prints one diagnostic
and continues with the buffers untouched; a read of 8 bytes (a datagram
of 8 or more bytes, any excess silently discarded by `read`) dispatches
the assembled bitset. -/
def loop_iter (env : Nat → ExecOutcome) (r : RecvResult)
    (bufs : List (List Nat)) : LoopStep :=
  match r with
  | .recvErr => .fatal 1
  | .recvDatagram payload =>
    let nbytes := min payload.length 8
    if nbytes = 0 then .fatal 1
    else if nbytes ≠ 8 then .continued 1 bufs
    else
      let d := dispatch env (le64 (payload.take 8)) bufs
      .continued d.oobDiags d.bufs

/-- The client's bitmask-building loop (status.cpp `main`): starting from
`bs = 0`, OR in `u64(1) << pos` for each argument, failing (non-zero
exit) on any position `≥ 64`.  Arguments are modelled as the parsed `u8`
values; an argument that does not parse as a `u8` also makes the client
exit with failure, which coincides with this model because any such value
is `≥ 64`. -/
def build_mask : Nat → List Nat → Option Nat
  | bs, [] => some bs
  | bs, pos :: rest =>
    if pos < 64 then build_mask (bs ||| (1 <<< pos)) rest else none

/-- The client `main` (status.cpp): with no arguments print usage and
fail; otherwise build the bitmask from the argument list (and send it as
one 8-byte datagram).  `none` models a non-zero exit status, `some bs`
the bitmask sent. -/
def client_main (args : List Nat) : Option Nat :=
  if args.isEmpty then none else build_mask 0 args

/-- An all-zero field buffer, the initial contents of one row of the
zero-initialized static array `field_buffers`. -/
def zeroBuf : List Nat := List.replicate FIELD_BUF_MAX_SIZE 0

/-- The zero-initialized `field_buffers` array at program start. -/
def initialBuffers : List (List Nat) := List.replicate N_FIELDS zeroBuf

/-- A single field buffer is well-formed: it spans exactly
`FIELD_BUF_MAX_SIZE = 32` bytes and contains a null terminator within
that capacity. -/
def goodBuf (buf : List Nat) : Prop :=
  buf.length = FIELD_BUF_MAX_SIZE ∧ 0 ∈ buf

/-- The field store is well-formed: `N_FIELDS` buffers, each
well-formed. -/
def storeInv (bufs : List (List Nat)) : Prop :=
  bufs.length = N_FIELDS ∧ ∀ buf ∈ bufs, goodBuf buf

/-- The inductive invariant the program actually maintains on each
buffer: it spans exactly the 32-byte capacity and its last byte is a
null.  Every write path leaves byte 31 null: the zero initialization, a
capture (at most 31 data bytes, with the terminator landing on byte 31
exactly when 31 bytes were captured) and a failing read (at most 30
partial bytes at the front).  This is strictly stronger than `goodBuf`
and, unlike `goodBuf` alone, is preserved by every single operation. -/
def tightBuf (buf : List Nat) : Prop :=
  buf.length = FIELD_BUF_MAX_SIZE ∧ buf.getD (FIELD_BUF_MAX_SIZE - 1) 0 = 0

/-- The store-level inductive invariant: `N_FIELDS` buffers, each with a
null last byte. -/
def tightStore (bufs : List (List Nat)) : Prop :=
  bufs.length = N_FIELDS ∧ ∀ buf ∈ bufs, tightBuf buf

/-- Fixture environment for witnesses: every field's command prints the
two bytes `Hi`. -/
def envW : Nat → ExecOutcome := fun _ => ExecOutcome.ok [72, 105]

/-- Fixture store for witnesses: field 0 holds `A`, field 1 holds `B`,
field 2 holds `C`, each in a 32-byte buffer. -/
def bufsW : List (List Nat) :=
  [65 :: List.replicate 31 0, 66 :: List.replicate 31 0,
    67 :: List.replicate 31 0]

/-! Helper lemmas. -/

lemma test_mask_int_eq_pow (i : Nat) : test_mask_int i = 2 ^ i := by
  simp [test_mask_int, Nat.shiftLeft_eq]

lemma and_test_mask_ne_zero (n i : Nat) :
    (n &&& test_mask_int i ≠ 0) ↔ n.testBit i = true := by
  rw [test_mask_int_eq_pow, Nat.and_two_pow]
  cases h : n.testBit i <;> simp [h]

lemma clear_mask_int_testBit {j : Nat} (hj : j < 64) (i : Nat) :
    (clear_mask_int j).testBit i = (decide (i < 64) && !(2 ^ j).testBit i) := by
  have hs : (1 : Nat) <<< j = 2 ^ j := by simp [Nat.shiftLeft_eq]
  have h1 : clear_mask_int j = 2 ^ 64 - (2 ^ j + 1) := by
    simp only [clear_mask_int, hs]
    omega
  have h2 : 2 ^ j < 2 ^ 64 := Nat.pow_lt_pow_right (by norm_num) hj
  rw [h1, Nat.testBit_two_pow_sub_succ h2]

lemma and_clear_testBit (n : Nat) {j i : Nat} (hj : j < 64) (hi : i < 64)
    (hne : j ≠ i) : (n &&& clear_mask_int j).testBit i = n.testBit i := by
  rw [Nat.testBit_and, clear_mask_int_testBit hj i, Nat.testBit_two_pow]
  simp [hi, hne]

lemma exists_three {α : Type} (l : List α) (h : l.length = 3) :
    ∃ a b c, l = [a, b, c] := by
  rcases l with _ | ⟨a, l⟩
  · simp at h
  rcases l with _ | ⟨b, l⟩
  · simp at h
  rcases l with _ | ⟨c, l⟩
  · simp at h
  rcases l with _ | ⟨d, l⟩
  · exact ⟨a, b, c, rfl⟩
  · simp only [List.length_cons] at h
    omega

lemma dispatch_loop_leftover (env : Nat → ExecOutcome) (test clear : Nat → Nat)
    (idxs : List Nat) :
    ∀ bitset bufs ran,
      (dispatch_loop env test clear idxs bitset bufs ran).1
        = idxs.foldl (fun b i => b &&& clear i) bitset := by
  induction idxs with
  | nil => intro bitset bufs ran; rfl
  | cons i rest ih =>
    intro bitset bufs ran
    by_cases h : bitset &&& test i ≠ 0 <;>
      simp [dispatch_loop, h, ih, List.foldl_cons]

lemma dispatch_loop_ran_mem (env : Nat → ExecOutcome) (test clear : Nat → Nat)
    (idxs : List Nat) :
    ∀ bitset bufs ran x,
      x ∈ (dispatch_loop env test clear idxs bitset bufs ran).2.2 →
        x ∈ ran ∨ x ∈ idxs := by
  induction idxs with
  | nil =>
    intro bitset bufs ran x hx
    exact Or.inl hx
  | cons i rest ih =>
    intro bitset bufs ran x hx
    by_cases h : bitset &&& test i ≠ 0
    · simp only [dispatch_loop, if_pos h] at hx
      rcases ih _ _ _ x hx with h1 | h1
      · rcases List.mem_append.mp h1 with h2 | h2
        · exact Or.inl h2
        · right
          simp only [List.mem_singleton] at h2
          exact h2 ▸ List.mem_cons_self i rest
      · exact Or.inr (List.mem_cons_of_mem i h1)
    · simp only [dispatch_loop, if_neg h] at hx
      rcases ih _ _ _ x hx with h1 | h1
      · exact Or.inl h1
      · exact Or.inr (List.mem_cons_of_mem i h1)

/-- Core frame property of one dispatch: the executed-update trace is
exactly the list of set bit positions below `N_FIELDS`, and buffers of
clear positions are untouched. -/
lemma dispatch_frame (env : Nat → ExecOutcome)
    (bitset : Nat) (bufs : List (List Nat))
    (hlen : bufs.length = N_FIELDS) :
    (dispatch env bitset bufs).ran
        = (List.range N_FIELDS).filter (fun i => bitset.testBit i)
      ∧ ∀ i, i < N_FIELDS → bitset.testBit i = false →
          (dispatch env bitset bufs).bufs.getD i [] = bufs.getD i [] := by
  obtain ⟨b0, b1, b2, rfl⟩ := exists_three bufs hlen
  have hr : List.range N_FIELDS = [0, 1, 2] := rfl
  have c0 : (bitset &&& test_mask_int 0 ≠ 0) ↔ bitset.testBit 0 = true :=
    and_test_mask_ne_zero bitset 0
  have c1 : ((bitset &&& clear_mask_int 0) &&& test_mask_int 1 ≠ 0)
      ↔ bitset.testBit 1 = true := by
    rw [and_test_mask_ne_zero,
      and_clear_testBit bitset (by norm_num) (by norm_num) (by norm_num)]
  have c2 : (((bitset &&& clear_mask_int 0) &&& clear_mask_int 1)
        &&& test_mask_int 2 ≠ 0) ↔ bitset.testBit 2 = true := by
    rw [and_test_mask_ne_zero,
      and_clear_testBit _ (by norm_num) (by norm_num) (by norm_num),
      and_clear_testBit _ (by norm_num) (by norm_num) (by norm_num)]
  cases h0 : bitset.testBit 0 <;> cases h1 : bitset.testBit 1 <;>
    cases h2 : bitset.testBit 2 <;>
    · constructor
      · simp [dispatch, hr, dispatch_loop, c0, c1, c2, h0, h1, h2,
          List.filter]
      · intro i hi hbit
        have hi3 : i < 3 := hi
        interval_cases i <;>
          simp_all [dispatch, hr, dispatch_loop, c0, c1, c2, run_update]

/-- Characterization of the success path of `read_cmd_output` on a
32-byte buffer: the captured bytes (at most 31) are written over the
front of the buffer, a null terminator follows them, the last captured
byte is replaced by a null when it is a newline, and the bytes beyond the
terminator keep their previous values. -/
lemma read_cmd_output_ok_eq (output buf : List Nat)
    (hbuf : buf.length = FIELD_BUF_MAX_SIZE) :
    (read_cmd_output (ExecOutcome.ok output) buf).2
      = (if (output.take 31).getLast? = some 10
          then (output.take 31).set ((output.take 31).length - 1) 0
          else output.take 31)
        ++ 0 :: buf.drop ((output.take 31).length + 1) := by
  rcases buf with _ | ⟨b, t⟩
  · simp [FIELD_BUF_MAX_SIZE] at hbuf
  have ht : t.length = 31 := by
    simp only [List.length_cons, FIELD_BUF_MAX_SIZE] at hbuf
    omega
  simp only [read_cmd_output, read_all_bytes, overwriteFront,
    FIELD_BUF_MAX_SIZE, List.set_cons_zero, Nat.add_sub_cancel]
  generalize hcap : output.take 31 = captured
  have hn : captured.length ≤ 31 := by
    rw [← hcap, List.length_take]
    exact Nat.min_le_left _ _
  have hidx : captured.length < (0 :: t).length := by
    simp only [List.length_cons, ht]
    omega
  have hdrop := List.drop_eq_getElem_cons hidx
  have hset3 : (captured ++ (0 :: t).drop captured.length).set
        captured.length 0
      = captured ++ 0 :: (0 :: t).drop (captured.length + 1) := by
    rw [List.set_append_right captured.length 0 (Nat.le_refl _),
      Nat.sub_self, hdrop, List.set_cons_zero]
  have hdropbt : (0 :: t).drop (captured.length + 1)
      = (b :: t).drop (captured.length + 1) := rfl
  rw [hset3, hdropbt]
  split
  case isTrue h =>
    obtain ⟨hpos, hgd⟩ := h
    have h1 : captured.length - 1 < captured.length := by omega
    have hlast : captured.getLast? = some 10 := by
      rw [List.getD_eq_getElem?_getD, List.getElem?_append_left h1,
        ← List.getLast?_eq_getElem?] at hgd
      rcases hl : captured.getLast? with _ | v
      · rw [hl] at hgd
        simp at hgd
      · rw [hl] at hgd
        simp only [Option.getD_some] at hgd
        rw [hgd]
    rw [if_pos hlast, List.set_append_left _ _ (by omega)]
  case isFalse h =>
    have hlast : ¬ captured.getLast? = some 10 := by
      intro hl
      apply h
      have hne : captured ≠ [] := by
        intro he
        rw [he] at hl
        simp at hl
      have hpos : 0 < captured.length := List.length_pos.mpr hne
      have h1 : captured.length - 1 < captured.length := by omega
      refine ⟨hpos, ?_⟩
      rw [List.getD_eq_getElem?_getD, List.getElem?_append_left h1,
        ← List.getLast?_eq_getElem?, hl]
      rfl
    rw [if_neg hlast]

/-- Reading the stored C string of a buffer that is a zero-free list
followed by a null byte and arbitrary residue yields exactly that
zero-free list. -/
lemma cstr_append_zero (l rest : List Nat) (h : 0 ∉ l) :
    cstr (l ++ 0 :: rest) = l := by
  induction l with
  | nil => simp [cstr]
  | cons a as ih =>
    have ha : a ≠ 0 := by
      intro h0
      subst h0
      exact h (List.mem_cons_self 0 as)
    have has : 0 ∉ as := fun hm => h (List.mem_cons_of_mem a hm)
    simp [cstr, ha, ih has]

/-- Setting the last element of a non-empty list. -/
lemma set_last_eq (l : List Nat) (a : Nat) (h : l ≠ []) :
    l.set (l.length - 1) a = l.dropLast ++ [a] := by
  induction l with
  | nil => exact absurd rfl h
  | cons x xs ih =>
    cases xs with
    | nil => rfl
    | cons y ys =>
      have hxs : (y :: ys) ≠ [] := by simp
      have hl : (x :: y :: ys).length - 1 = ((y :: ys).length - 1) + 1 := by
        simp
      rw [hl, List.set_cons_succ, ih hxs, List.dropLast_cons₂]
      rfl

/-- The last byte of a buffer of the form `front ++ 0 :: buf.drop m`
(the success-path layout) is null whenever the old buffer's byte 31 was
null: byte 31 of the new buffer is either the written terminator (when
31 data bytes were captured) or the old byte 31 kept in the residue. -/
lemma getD31_append_zero_drop (l1 buf : List Nat) (m : Nat)
    (h1 : l1.length ≤ 31) (hm : m = l1.length + 1)
    (hlast : buf.getD 31 0 = 0) :
    (l1 ++ 0 :: buf.drop m).getD 31 0 = 0 := by
  subst hm
  rcases Nat.lt_or_ge l1.length 31 with hlt | hge
  · rw [List.getD_eq_getElem?_getD, List.getElem?_append_right (by omega)]
    have ha : 31 - l1.length = (30 - l1.length) + 1 := by omega
    rw [ha, List.getElem?_cons_succ, List.getElem?_drop]
    have hb : l1.length + 1 + (30 - l1.length) = 31 := by omega
    rw [hb]
    rw [List.getD_eq_getElem?_getD] at hlast
    exact hlast
  · have he : l1.length = 31 := by omega
    rw [List.getD_eq_getElem?_getD, List.getElem?_append_right (by omega),
      he]
    simp

/-- The last byte of a buffer whose front was overwritten by at most 30
partial bytes (the read-failure layout) is null whenever the old
buffer's byte 31 was null. -/
lemma getD31_overwriteFront_set (buf pb : List Nat) (hk : pb.length ≤ 30)
    (hlast : buf.getD 31 0 = 0) :
    (pb ++ (buf.set 0 0).drop pb.length).getD 31 0 = 0 := by
  rw [List.getD_eq_getElem?_getD, List.getElem?_append_right (by omega),
    List.getElem?_drop]
  have hb : pb.length + (31 - pb.length) = 31 := by omega
  rw [hb, List.getElem?_set_ne (by omega)]
  rw [List.getD_eq_getElem?_getD] at hlast
  exact hlast

/-- Every outcome of the Command Executor preserves the inductive
last-byte-null invariant of the written buffer. -/
lemma tightBuf_read_cmd_output (out : ExecOutcome) (buf : List Nat)
    (h : tightBuf buf) : tightBuf (read_cmd_output out buf).2 := by
  obtain ⟨hlen, hlast⟩ := h
  have h31 : buf.getD 31 0 = 0 := hlast
  have hlen32 : buf.length = 32 := hlen
  cases out with
  | pipeFail => exact ⟨hlen, hlast⟩
  | forkFail => exact ⟨hlen, hlast⟩
  | readFail transferred =>
    have hk : (transferred.take 30).length ≤ 30 := by
      rw [List.length_take]
      exact Nat.min_le_left _ _
    constructor
    · show (overwriteFront (buf.set 0 0) (transferred.take 30)).length = 32
      simp only [overwriteFront, List.length_append, List.length_drop,
        List.length_set, hlen32]
      omega
    · show (overwriteFront (buf.set 0 0) (transferred.take 30)).getD 31 0
        = 0
      exact getD31_overwriteFront_set buf (transferred.take 30) hk h31
  | ok output =>
    have hn : (output.take 31).length ≤ 31 := by
      rw [List.length_take]
      exact Nat.min_le_left _ _
    have hl1 : (if (output.take 31).getLast? = some 10
        then (output.take 31).set ((output.take 31).length - 1) 0
        else output.take 31).length = (output.take 31).length := by
      split <;> simp
    constructor
    · rw [read_cmd_output_ok_eq output buf hlen]
      show (_ ++ 0 :: buf.drop _).length = 32
      simp only [List.length_append, List.length_cons, List.length_drop,
        hlen32, hl1]
      omega
    · rw [read_cmd_output_ok_eq output buf hlen]
      show (_ ++ 0 :: buf.drop _).getD 31 0 = 0
      exact getD31_append_zero_drop _ buf _ (by rw [hl1]; exact hn)
        (by rw [hl1]) h31

/-- `run_update` at a valid field index preserves the store-level
inductive invariant. -/
lemma tightStore_run_update (env : Nat → ExecOutcome) (i : Nat)
    (hi : i < N_FIELDS) (bufs : List (List Nat)) (h : tightStore bufs) :
    tightStore (run_update env i bufs) := by
  obtain ⟨hlen, hall⟩ := h
  refine ⟨by simp [run_update, hlen], ?_⟩
  intro buf hm
  rcases List.mem_or_eq_of_mem_set hm with hm1 | hm1
  · exact hall _ hm1
  · subst hm1
    apply tightBuf_read_cmd_output
    have hi2 : i < bufs.length := by
      rw [hlen]
      exact hi
    have hgd : bufs.getD i [] = bufs[i] := by
      rw [List.getD_eq_getElem?_getD, List.getElem?_eq_getElem hi2]
      rfl
    rw [hgd]
    exact hall _ (List.getElem_mem hi2)

/-- The dispatch loop preserves the store-level inductive invariant
whenever it only visits valid field indices. -/
lemma tightStore_dispatch_loop (env : Nat → ExecOutcome)
    (test clear : Nat → Nat) :
    ∀ idxs : List Nat, (∀ i ∈ idxs, i < N_FIELDS) →
      ∀ bitset bufs ran, tightStore bufs →
        tightStore (dispatch_loop env test clear idxs bitset bufs ran).2.1 := by
  intro idxs
  induction idxs with
  | nil =>
    intro _ bitset bufs ran h
    exact h
  | cons i rest ih =>
    intro hidx bitset bufs ran h
    have hi := hidx i (List.mem_cons_self i rest)
    have hrest : ∀ j ∈ rest, j < N_FIELDS :=
      fun j hj => hidx j (List.mem_cons_of_mem i hj)
    by_cases hc : bitset &&& test i ≠ 0
    · simp only [dispatch_loop, if_pos hc]
      exact ih hrest _ _ _ (tightStore_run_update env i hi bufs h)
    · simp only [dispatch_loop, if_neg hc]
      exact ih hrest _ _ _ h

/-- The bytes of a stored C string stop strictly before the end of any
buffer containing a null byte. -/
lemma cstr_length_lt (l : List Nat) (h : 0 ∈ l) :
    (cstr l).length < l.length := by
  induction l with
  | nil => simp at h
  | cons a as ih =>
    by_cases ha : a = 0
    · simp [cstr, ha]
    · have h2 : 0 ∈ as := by
        rcases List.mem_cons.mp h with h1 | h1
        · exact absurd h1.symm ha
        · exact h1
      have h3 := ih h2
      simp only [cstr, if_neg ha, List.length_cons]
      omega

/-- The zero buffer satisfies the inductive invariant. -/
lemma tightBuf_zeroBuf : tightBuf zeroBuf := ⟨by decide, by decide⟩

/-- The zero-initialized store satisfies the inductive invariant. -/
lemma tightStore_initial : tightStore initialBuffers :=
  ⟨by decide, fun buf hm => (List.eq_of_mem_replicate hm) ▸ tightBuf_zeroBuf⟩

/-- The inductive invariant implies the claimed property: a null
terminator within the 32-byte capacity. -/
lemma tightBuf_goodBuf (buf : List Nat) (h : tightBuf buf) : goodBuf buf := by
  obtain ⟨hlen, hlast⟩ := h
  refine ⟨hlen, ?_⟩
  have h31 : 31 < buf.length := by
    rw [hlen]
    decide
  have hb : buf[31] = 0 := by
    have hx : buf.getD 31 0 = 0 := hlast
    rw [List.getD_eq_getElem?_getD, List.getElem?_eq_getElem h31] at hx
    simpa using hx
  rw [← hb]
  exact List.getElem_mem h31

/-- The client's loop over a list of valid positions succeeds and
produces the bitmask whose set bits are the starting mask's bits together
with exactly the listed positions. -/
lemma build_mask_spec :
    ∀ l : List Nat, (∀ x ∈ l, x < 64) →
      ∀ bs, ∃ m, build_mask bs l = some m
        ∧ ∀ j, m.testBit j = (bs.testBit j || decide (j ∈ l)) := by
  intro l
  induction l with
  | nil =>
    intro _ bs
    exact ⟨bs, rfl, fun j => by simp⟩
  | cons pos rest ih =>
    intro hall bs
    have hpos : pos < 64 := hall pos (List.mem_cons_self pos rest)
    have hrest : ∀ x ∈ rest, x < 64 :=
      fun x hx => hall x (List.mem_cons_of_mem pos hx)
    obtain ⟨m, hm, hbit⟩ := ih hrest (bs ||| 1 <<< pos)
    refine ⟨m, ?_, ?_⟩
    · simp only [build_mask, if_pos hpos]
      exact hm
    · intro j
      rw [hbit j]
      have hshift : (1 : Nat) <<< pos = 2 ^ pos := by
        simp [Nat.shiftLeft_eq]
      rw [hshift, Nat.testBit_or, Nat.testBit_two_pow]
      simp only [List.mem_cons, Bool.decide_or, Bool.or_assoc]
      rw [show decide (pos = j) = decide (j = pos) from
        decide_eq_decide.mpr ⟨Eq.symm, Eq.symm⟩]

/-! Claim theorems. -/

/-- C1: dispatching a bitmask runs the update source of exactly the
fields whose bit (at a position below `N_FIELDS`) is set — the trace of
executed updates is precisely the set bits of `0 .. N_FIELDS - 1` in
order — and the stored buffer of every field whose bit is clear is
byte-identical to its pre-call value. -/
theorem dispatch_updates_exactly_set_bits (env : Nat → ExecOutcome)
    (bitset : Nat) (_hbs : bitset < 2 ^ 64) (bufs : List (List Nat))
    (hlen : bufs.length = N_FIELDS) :
    (dispatch env bitset bufs).ran
        = (List.range N_FIELDS).filter (fun i => bitset.testBit i)
      ∧ ∀ i, i < N_FIELDS → bitset.testBit i = false →
          (dispatch env bitset bufs).bufs.getD i [] = bufs.getD i [] :=
  dispatch_frame env bitset bufs hlen

/-- Witness for C1 at bitmask `0b011`, the fixture environment and the
fixture store. -/
theorem dispatch_updates_exactly_set_bits_witness :
    (dispatch envW 3 bufsW).ran
        = (List.range N_FIELDS).filter (fun i => Nat.testBit 3 i)
      ∧ ∀ i, i < N_FIELDS → Nat.testBit 3 i = false →
          (dispatch envW 3 bufsW).bufs.getD i [] = bufsW.getD i [] :=
  dispatch_updates_exactly_set_bits envW 3 (by norm_num) bufsW (by decide)

/-- Counterexample to C2 as stated: a field that currently stores the
one-byte value `A` and whose update fails in the `read_all` step before
any byte is transferred does not keep its previous value — the executor
has already zeroed `buf[0]`, so the stored value becomes empty. -/
theorem read_fail_wipes_previous_value_cex :
    cstr (read_cmd_output (ExecOutcome.readFail [])
        (65 :: List.replicate 31 0)).2
      ≠ cstr (65 :: List.replicate 31 0) := by
  decide

/-- C2 amended: a pipe-creation or process-spawn failure leaves the
field's stored buffer byte-identical to its pre-update contents.  A read
failure does not in general preserve the value: the executor zeroes the
first byte and the failing read may already have deposited up to 30
partial bytes over the front of the buffer (no terminator is added), so
the bytes at the front equal the partial bytes, the bytes beyond them
(from index 1 on when nothing was transferred) keep their previous
values, and when nothing was transferred the field reads as the empty
string. -/
theorem read_cmd_output_failure_effect (buf : List Nat) :
    (read_cmd_output ExecOutcome.pipeFail buf).2 = buf
      ∧ (read_cmd_output ExecOutcome.forkFail buf).2 = buf
      ∧ cstr (read_cmd_output (ExecOutcome.readFail []) buf).2 = []
      ∧ (∀ pb j, j < (pb.take 30).length →
          ((read_cmd_output (ExecOutcome.readFail pb) buf).2).getD j 0
            = (pb.take 30).getD j 0)
      ∧ ∀ pb j, (pb.take 30).length ≤ j → 1 ≤ j →
          ((read_cmd_output (ExecOutcome.readFail pb) buf).2).getD j 0
            = buf.getD j 0 := by
  refine ⟨rfl, rfl, ?_, ?_, ?_⟩
  · rcases buf with _ | ⟨b, t⟩
    · rfl
    · simp [read_cmd_output, overwriteFront, cstr]
  · intro pb j hj
    simp only [read_cmd_output, overwriteFront]
    rw [List.getD_eq_getElem?_getD, List.getD_eq_getElem?_getD,
      List.getElem?_append_left hj]
  · intro pb j hk h1
    simp only [read_cmd_output, overwriteFront]
    rw [List.getD_eq_getElem?_getD, List.getD_eq_getElem?_getD,
      List.getElem?_append_right hk, List.getElem?_drop]
    have hidx : (pb.take 30).length + (j - (pb.take 30).length) = j := by
      omega
    rw [hidx, List.getElem?_set_ne (by omega)]

/-- Witness for C2 (amended): a read failure that transferred the two
bytes `BC` onto a field holding `A` leaves byte 1 equal to the second
partial byte and byte 5 equal to its previous value. -/
theorem read_cmd_output_failure_effect_witness :
    ((read_cmd_output (ExecOutcome.readFail [66, 67])
          (65 :: List.replicate 31 0)).2).getD 1 0
        = ([66, 67].take 30).getD 1 0
      ∧ ((read_cmd_output (ExecOutcome.readFail [66, 67])
            (65 :: List.replicate 31 0)).2).getD 5 0
          = (65 :: List.replicate 31 0).getD 5 0 :=
  ⟨(read_cmd_output_failure_effect (65 :: List.replicate 31 0)).2.2.2.1
      [66, 67] 1 (by decide),
    (read_cmd_output_failure_effect (65 :: List.replicate 31 0)).2.2.2.2
      [66, 67] 5 (by decide) (by decide)⟩

/-- Counterexample to C3 as stated: the 32-byte output consisting of 30
`a` bytes, a newline and a `b` byte is strictly longer than 31 bytes, yet
the stored value is not 31 bytes long — the truncated capture ends in the
newline, which the executor then strips, leaving 30 bytes. -/
theorem truncation_claim_cex :
    31 < (List.replicate 30 97 ++ [10, 98]).length
      ∧ (cstr (read_cmd_output (ExecOutcome.ok
            (List.replicate 30 97 ++ [10, 98])) zeroBuf).2).length ≠ 31 := by
  decide

/-- C3 amended: an output strictly longer than 31 bytes is truncated to
its first 31 bytes, which are stored followed by a null terminator at
offset 31 — except that when the 31st captured byte is a newline it is
overwritten by a second null, leaving a 30-byte value.  In both cases the
buffer still spans exactly its 32-byte capacity, so no byte outside the
buffer is written. -/
theorem read_cmd_output_truncates (output buf : List Nat)
    (hout : 31 < output.length) (hbuf : buf.length = FIELD_BUF_MAX_SIZE) :
    (read_cmd_output (ExecOutcome.ok output) buf).2
        = (if output.getD 30 0 = 10
            then (output.take 31).set 30 0
            else output.take 31) ++ [0]
      ∧ ((read_cmd_output (ExecOutcome.ok output) buf).2).length
          = FIELD_BUF_MAX_SIZE := by
  have hlen31 : (output.take 31).length = 31 := by
    rw [List.length_take]
    omega
  have hdrop32 : buf.drop 32 = [] :=
    List.drop_eq_nil_of_le (by rw [hbuf]; exact Nat.le_refl _)
  have hlast : (output.take 31).getLast? = some (output.getD 30 0) := by
    rw [List.getLast?_eq_getElem?, hlen31]
    have h30 : (30 : Nat) < 31 := by norm_num
    rw [List.getElem?_take_of_lt h30, List.getD_eq_getElem?_getD,
      List.getElem?_eq_getElem (by omega)]
    rfl
  have hchar := read_cmd_output_ok_eq output buf hbuf
  rw [hlen31] at hchar
  norm_num at hchar
  rw [hdrop32] at hchar
  constructor
  · rw [hchar, hlast]
    by_cases hnl : output.getD 30 0 = 10
    · rw [if_pos hnl, if_pos (by rw [hnl])]
    · rw [if_neg hnl, if_neg (by simpa using hnl)]
  · rw [hchar]
    by_cases hnl : (output.take 31).getLast? = some 10
    · rw [if_pos hnl]
      simp [List.length_set, hlen31, FIELD_BUF_MAX_SIZE]
    · rw [if_neg hnl]
      simp [hlen31, FIELD_BUF_MAX_SIZE]

/-- Witness for C3 (amended) at a 40-byte output of `a` bytes on a zeroed
buffer. -/
theorem read_cmd_output_truncates_witness :
    (read_cmd_output (ExecOutcome.ok (List.replicate 40 97)) zeroBuf).2
        = (if (List.replicate 40 97).getD 30 0 = 10
            then ((List.replicate 40 97).take 31).set 30 0
            else (List.replicate 40 97).take 31) ++ [0]
      ∧ ((read_cmd_output (ExecOutcome.ok (List.replicate 40 97))
            zeroBuf).2).length = FIELD_BUF_MAX_SIZE :=
  read_cmd_output_truncates (List.replicate 40 97) zeroBuf (by decide)
    (by decide)

/-- C4: a dispatched bitmask with at least one bit set at a position
`≥ N_FIELDS` causes no update at those positions — every executed update
index is below `N_FIELDS` — and the dispatch prints exactly one
out-of-range diagnostic line, however many stray bits are set. -/
theorem dispatch_oob_single_diag (env : Nat → ExecOutcome) (bitset : Nat)
    (bufs : List (List Nat)) (hbs : bitset < 2 ^ 64)
    (h : ∃ i, N_FIELDS ≤ i ∧ bitset.testBit i = true) :
    (dispatch env bitset bufs).oobDiags = 1
      ∧ ∀ j ∈ (dispatch env bitset bufs).ran, j < N_FIELDS := by
  obtain ⟨i, hi3, hbit⟩ := h
  have hi3' : 3 ≤ i := hi3
  have hi64 : i < 64 := by
    by_contra hge
    have hlt : bitset < 2 ^ i :=
      lt_of_lt_of_le hbs (Nat.pow_le_pow_right (by norm_num) (by omega))
    rw [Nat.testBit_lt_two_pow hlt] at hbit
    exact Bool.false_ne_true hbit
  have hr : List.range N_FIELDS = [0, 1, 2] := rfl
  have hfold : (dispatch_loop env test_mask_int clear_mask_int
        (List.range N_FIELDS) bitset bufs []).1
      = ((bitset &&& clear_mask_int 0) &&& clear_mask_int 1)
          &&& clear_mask_int 2 := by
    rw [dispatch_loop_leftover, hr]
    rfl
  have hne : (((bitset &&& clear_mask_int 0) &&& clear_mask_int 1)
      &&& clear_mask_int 2) ≠ 0 := by
    intro h0
    have hb : ((((bitset &&& clear_mask_int 0) &&& clear_mask_int 1)
        &&& clear_mask_int 2)).testBit i = true := by
      rw [and_clear_testBit _ (by norm_num) hi64 (by omega),
        and_clear_testBit _ (by norm_num) hi64 (by omega),
        and_clear_testBit _ (by norm_num) hi64 (by omega)]
      exact hbit
    rw [h0, Nat.zero_testBit] at hb
    exact Bool.false_ne_true hb
  constructor
  · simp only [dispatch, hfold]
    exact if_pos hne
  · intro j hj
    simp only [dispatch] at hj
    rcases dispatch_loop_ran_mem env test_mask_int clear_mask_int
        (List.range N_FIELDS) bitset bufs [] j hj with h1 | h1
    · exact absurd h1 (List.not_mem_nil j)
    · exact List.mem_range.mp h1

/-- Witness for C4 at bitmask `2 ^ 40 ||| 1` with the fixture environment
and store. -/
theorem dispatch_oob_single_diag_witness :
    (dispatch envW (2 ^ 40 ||| 1) bufsW).oobDiags = 1
      ∧ ∀ j ∈ (dispatch envW (2 ^ 40 ||| 1) bufsW).ran, j < N_FIELDS :=
  dispatch_oob_single_diag envW (2 ^ 40 ||| 1) bufsW (by decide)
    ⟨40, by decide, by decide⟩

/-- C5: for every command output, the stored value is the captured text
(the first at most 31 bytes) with exactly one trailing newline removed
when the captured text ends in a newline, and the captured text unchanged
otherwise; in particular a capture ending in two newlines keeps exactly
one.  (The captured text is assumed null-free, as the stored value is
read back as a C string.) -/
theorem read_cmd_output_strips_one_newline (output buf : List Nat)
    (hbuf : buf.length = FIELD_BUF_MAX_SIZE) (h0 : 0 ∉ output.take 31) :
    cstr (read_cmd_output (ExecOutcome.ok output) buf).2
      = if (output.take 31).getLast? = some 10
        then (output.take 31).dropLast
        else output.take 31 := by
  rw [read_cmd_output_ok_eq output buf hbuf]
  by_cases hl : (output.take 31).getLast? = some 10
  · rw [if_pos hl, if_pos hl]
    have hne : output.take 31 ≠ [] := by
      intro he
      rw [he] at hl
      simp at hl
    rw [set_last_eq _ 0 hne, List.append_assoc, List.singleton_append]
    exact cstr_append_zero _ _
      (fun hm => h0 ((List.dropLast_sublist _).subset hm))
  · rw [if_neg hl, if_neg hl]
    exact cstr_append_zero _ _ h0

/-- Witness for C5 at the output `a` newline newline: the stored value
keeps exactly one trailing newline. -/
theorem read_cmd_output_strips_one_newline_witness :
    cstr (read_cmd_output (ExecOutcome.ok [97, 10, 10]) zeroBuf).2
      = if ([97, 10, 10].take 31).getLast? = some 10
        then ([97, 10, 10].take 31).dropLast
        else [97, 10, 10].take 31 :=
  read_cmd_output_strips_one_newline [97, 10, 10] zeroBuf (by decide)
    (by decide)

/-- Counterexample to C6 as stated: a 9-byte datagram has a length that
is neither 0 nor 8, yet it does not produce one diagnostic with the
buffers unchanged — `read` silently truncates it to its first 8 bytes
and returns 8, so the daemon dispatches the assembled bitmask (here 1),
updating field 0 and printing no diagnostic. -/
theorem oversized_datagram_cex :
    ([1, 0, 0, 0, 0, 0, 0, 0, 0] : List Nat).length ≠ 0
      ∧ ([1, 0, 0, 0, 0, 0, 0, 0, 0] : List Nat).length ≠ 8
      ∧ loop_iter envW
          (RecvResult.recvDatagram [1, 0, 0, 0, 0, 0, 0, 0, 0]) bufsW
        ≠ LoopStep.continued 1 bufsW := by
  decide

/-- C6 amended: a received datagram of 1 to 7 bytes makes the daemon
print one diagnostic, leave every field buffer unchanged and continue
the loop; a datagram of 8 or more bytes is delivered by `read` as
exactly 8 bytes (any excess silently discarded) and its first 8 bytes
are dispatched as a bitmask; a zero-length read (empty datagram, which
the daemon treats as the channel being closed) or a receive error
terminates the daemon with the failure exit status 1. -/
theorem recv_loop_datagram_semantics (env : Nat → ExecOutcome)
    (bufs : List (List Nat)) (payload : List Nat) :
    (payload.length ≠ 0 → payload.length < 8 →
        loop_iter env (RecvResult.recvDatagram payload) bufs
          = LoopStep.continued 1 bufs)
      ∧ (8 ≤ payload.length →
          loop_iter env (RecvResult.recvDatagram payload) bufs
            = LoopStep.continued
                (dispatch env (le64 (payload.take 8)) bufs).oobDiags
                (dispatch env (le64 (payload.take 8)) bufs).bufs)
      ∧ (payload.length = 0 →
          loop_iter env (RecvResult.recvDatagram payload) bufs
            = LoopStep.fatal 1)
      ∧ loop_iter env RecvResult.recvErr bufs = LoopStep.fatal 1 := by
  refine ⟨?_, ?_, ?_, rfl⟩
  · intro h0 h8
    have hmin : min payload.length 8 = payload.length :=
      Nat.min_eq_left (by omega)
    simp only [loop_iter, hmin, if_neg h0]
    rw [if_pos (by omega)]
  · intro h8
    have hmin : min payload.length 8 = 8 := Nat.min_eq_right h8
    simp only [loop_iter, hmin]
    norm_num
  · intro h0
    simp [loop_iter, h0]

/-- Witness for C6 (amended) at a 3-byte, a 9-byte and a 0-byte
datagram. -/
theorem recv_loop_datagram_semantics_witness :
    loop_iter envW (RecvResult.recvDatagram [1, 2, 3]) bufsW
        = LoopStep.continued 1 bufsW
      ∧ loop_iter envW
            (RecvResult.recvDatagram [1, 0, 0, 0, 0, 0, 0, 0, 0]) bufsW
          = LoopStep.continued
              (dispatch envW
                (le64 ([1, 0, 0, 0, 0, 0, 0, 0, 0].take 8)) bufsW).oobDiags
              (dispatch envW
                (le64 ([1, 0, 0, 0, 0, 0, 0, 0, 0].take 8)) bufsW).bufs
      ∧ loop_iter envW (RecvResult.recvDatagram []) bufsW
          = LoopStep.fatal 1 :=
  ⟨(recv_loop_datagram_semantics envW bufsW [1, 2, 3]).1 (by decide)
      (by decide),
    (recv_loop_datagram_semantics envW bufsW
        [1, 0, 0, 0, 0, 0, 0, 0, 0]).2.1 (by decide),
    (recv_loop_datagram_semantics envW bufsW []).2.2.1 (by decide)⟩

/-- C7: the client encodes the index list `0 2` as the bitmask `0b101`,
and dispatching `0b101` runs exactly the updates of fields 0 and 2,
leaving field 1's stored buffer untouched. -/
theorem client_daemon_round_trip (env : Nat → ExecOutcome)
    (bufs : List (List Nat)) (hlen : bufs.length = N_FIELDS) :
    client_main [0, 2] = some 5
      ∧ (dispatch env 5 bufs).ran = [0, 2]
      ∧ (dispatch env 5 bufs).bufs.getD 1 [] = bufs.getD 1 [] := by
  obtain ⟨b0, b1, b2, rfl⟩ := exists_three bufs hlen
  refine ⟨by decide, ?_, ?_⟩
  · have hran := (dispatch_frame env 5 [b0, b1, b2] rfl).1
    rw [hran]
    decide
  · exact (dispatch_frame env 5 [b0, b1, b2] rfl).2 1 (by decide)
      (by decide)

/-- Witness for C7 with the fixture environment and store. -/
theorem client_daemon_round_trip_witness :
    client_main [0, 2] = some 5
      ∧ (dispatch envW 5 bufsW).ran = [0, 2]
      ∧ (dispatch envW 5 bufsW).bufs.getD 1 [] = bufsW.getD 1 [] :=
  client_daemon_round_trip envW bufsW (by decide)

/-- C8: with the build-time field count `N_FIELDS = 3`, the daemon
variant whose dispatch loop shifts the plain `int` literal (`bitset &
(1 << i)`, `bitset &= ~(1 << i)`) executes the same updates and reaches
the out-of-range diagnostic under exactly the same condition as the
variant that shifts a 64-bit value (`u64(1) << i`), for every bitmask,
environment and store. -/
theorem dispatch_int_variant_eq_u64_variant (env : Nat → ExecOutcome)
    (bitset : Nat) (bufs : List (List Nat)) :
    (dispatch env bitset bufs).ran = (dispatch64 env bitset bufs).ran
      ∧ (dispatch env bitset bufs).oobDiags
          = (dispatch64 env bitset bufs).oobDiags := by
  have ht0 : test_mask_int 0 = test_mask_u64 0 := by decide
  have ht1 : test_mask_int 1 = test_mask_u64 1 := by decide
  have ht2 : test_mask_int 2 = test_mask_u64 2 := by decide
  have hc0 : clear_mask_int 0 = clear_mask_u64 0 := by decide
  have hc1 : clear_mask_int 1 = clear_mask_u64 1 := by decide
  have hc2 : clear_mask_int 2 = clear_mask_u64 2 := by decide
  have hr : List.range N_FIELDS = [0, 1, 2] := rfl
  have hloop : dispatch_loop env test_mask_int clear_mask_int
        (List.range N_FIELDS) bitset bufs []
      = dispatch_loop env test_mask_u64 clear_mask_u64
        (List.range N_FIELDS) bitset bufs [] := by
    simp only [hr, dispatch_loop, ht0, ht1, ht2, hc0, hc1, hc2]
  exact ⟨by simp only [dispatch, dispatch64, hloop],
    by simp only [dispatch, dispatch64, hloop]⟩

/-- C9: the claimed property — every buffer spans exactly the 32-byte
capacity and contains a null terminator within it, so the stored string
is at most 31 bytes — holds in every reachable state.  The inductive
invariant the code maintains is the stronger `tightBuf` (the last byte
of each buffer is null): it holds of the zero-initialized store, is
preserved by every Command Executor capture (including failing reads
that deposit partial bytes), by the startup initialization and by every
dispatch, and it implies the claimed null-termination and length
bounds. -/
theorem field_buffer_invariants :
    tightStore initialBuffers
      ∧ (∀ out buf, tightBuf buf → tightBuf (read_cmd_output out buf).2)
      ∧ (∀ env bufs, tightStore bufs → tightStore (init_status env bufs))
      ∧ (∀ env bitset bufs, tightStore bufs →
          tightStore (dispatch env bitset bufs).bufs)
      ∧ (∀ bufs, tightStore bufs → storeInv bufs)
      ∧ ∀ buf, tightBuf buf →
          (cstr buf).length ≤ FIELD_BUF_MAX_SIZE - 1 := by
  refine ⟨tightStore_initial, tightBuf_read_cmd_output, ?_, ?_, ?_, ?_⟩
  · intro env bufs h
    have hr : List.range N_FIELDS = [0, 1, 2] := rfl
    simp only [init_status, hr, List.foldl_cons, List.foldl_nil]
    exact tightStore_run_update env 2 (by decide) _
      (tightStore_run_update env 1 (by decide) _
        (tightStore_run_update env 0 (by decide) _ h))
  · intro env bitset bufs h
    simp only [dispatch]
    exact tightStore_dispatch_loop env test_mask_int clear_mask_int
      (List.range N_FIELDS) (fun i hi => List.mem_range.mp hi)
      bitset bufs [] h
  · intro bufs h
    exact ⟨h.1, fun buf hm => tightBuf_goodBuf buf (h.2 buf hm)⟩
  · intro buf hg
    obtain ⟨hlen, hmem⟩ := tightBuf_goodBuf buf hg
    have := cstr_length_lt buf hmem
    rw [hlen] at this
    simp only [FIELD_BUF_MAX_SIZE] at this ⊢
    omega

/-- Witness for C9: a concrete capture on a zeroed buffer and a concrete
partial-read failure on a populated buffer keep the last byte null, a
concrete dispatch on the initial store preserves the invariant, and the
invariant yields the claimed property on the initial store. -/
theorem field_buffer_invariants_witness :
    tightBuf (read_cmd_output (ExecOutcome.ok [72, 105]) zeroBuf).2
      ∧ tightBuf (read_cmd_output (ExecOutcome.readFail [66, 67])
          (65 :: List.replicate 31 0)).2
      ∧ tightStore (dispatch envW 5 initialBuffers).bufs
      ∧ storeInv initialBuffers :=
  ⟨field_buffer_invariants.2.1 (ExecOutcome.ok [72, 105]) zeroBuf
      tightBuf_zeroBuf,
    field_buffer_invariants.2.1 (ExecOutcome.readFail [66, 67])
      (65 :: List.replicate 31 0) ⟨by decide, by decide⟩,
    field_buffer_invariants.2.2.2.1 envW 5 initialBuffers
      tightStore_initial,
    field_buffer_invariants.2.2.2.2.1 initialBuffers tightStore_initial⟩

/-- C10 (implicit): the client's bitmask construction is idempotent and
order-independent — two non-empty argument lists of valid indices (each
below 64) with the same underlying set of indices, in particular a list
with repeats or a permutation versus the deduplicated list, produce the
same bitmask. -/
theorem client_mask_set_semantics (l1 l2 : List Nat)
    (h1 : ∀ x ∈ l1, x < 64) (h2 : ∀ x ∈ l2, x < 64)
    (hne1 : l1 ≠ []) (hne2 : l2 ≠ [])
    (hmem : ∀ x, x ∈ l1 ↔ x ∈ l2) :
    client_main l1 = client_main l2 := by
  obtain ⟨m1, hm1, hb1⟩ := build_mask_spec l1 h1 0
  obtain ⟨m2, hm2, hb2⟩ := build_mask_spec l2 h2 0
  have hmeq : m1 = m2 := by
    apply Nat.eq_of_testBit_eq
    intro j
    rw [hb1 j, hb2 j, decide_eq_decide.mpr (hmem j)]
  have e1 : l1.isEmpty = false := by
    rcases l1 with _ | ⟨a, l⟩
    · exact absurd rfl hne1
    · rfl
  have e2 : l2.isEmpty = false := by
    rcases l2 with _ | ⟨a, l⟩
    · exact absurd rfl hne2
    · rfl
  simp only [client_main, e1, e2, Bool.false_eq_true, if_false]
  rw [hm1, hm2, hmeq]

/-- Witness for C10: the list with a repeat and different order produces
the same bitmask as the two-element list. -/
theorem client_mask_set_semantics_witness :
    client_main [0, 2, 2, 0] = client_main [2, 0] :=
  client_mask_set_semantics [0, 2, 2, 0] [2, 0] (by decide) (by decide)
    (by decide) (by decide)
    (fun x => by
      simp only [List.mem_cons, List.not_mem_nil, or_false]
      tauto)

end Status
